import Mathlib

/-
Verification development for the rates_app rate server
(src/rates_server/rates_server/rate_server.py).

The Python module is shallowly embedded below.  External collaborators are
passed in as explicit parameters:

* the HTTP quote provider (`get_rate_from_api`, whose network call and JSON
  decoding are a library boundary) is a function
  `provider : date → symbol → Except Exn rate`;
* the pyodbc-backed rates table is a list of rows `List RateQuote`, with the
  SQL lookup (`select ... where closingdate = ? and currencysymbol in (...)
  order by currencysymbol`) and the batched insert modelled directly;
* a possible pyodbc connection failure is the boolean `storeFail`;
* whether an exception belongs to the `OSError` family (the only family the
  session loop catches) is recorded in the `Exn` type.

Side effects performed by `process_client_command` and `run` (store lookup,
provider fetches, the batched insert, socket sends, and the
decrement-and-log-disconnect block) are reified as an ordered `List Effect`,
so ordering claims ("insert before reply", "disconnect bookkeeping exactly
once") become structural facts about that list.
-/

set_option autoImplicit false

namespace RatesApp

/-- Character class `[A-Z]` of the command-name group of
`CLIENT_COMMAND_REGEX`. -/
def isUpper (c : Char) : Bool :=
  decide ('A' ≤ c) && decide (c ≤ 'Z')

/-- Character class `[0-9]` used by the date group of the regex. -/
def isDigitCh (c : Char) : Bool :=
  decide ('0' ≤ c) && decide (c ≤ '9')

/-- Character class `[A-Z,:;|]` of the symbols group of the regex. -/
def isSymCh (c : Char) : Bool :=
  isUpper c || decide (c = ',') || decide (c = ':') || decide (c = ';') ||
    decide (c = '|')

/-- Separator class `[,:;|]` used by `re.split` on the symbols field. -/
def isSep (c : Char) : Bool :=
  decide (c = ',') || decide (c = ':') || decide (c = ';') || decide (c = '|')

/-- Shape test for the date group `[0-9]{4}-[0-9]{2}-[0-9]{2}`. -/
def dateFormat (l : List Char) : Bool :=
  match l with
  | [y1, y2, y3, y4, h1, m1, m2, h2, d1, d2] =>
    isDigitCh y1 && isDigitCh y2 && isDigitCh y3 && isDigitCh y4 &&
      decide (h1 = '-') && isDigitCh m1 && isDigitCh m2 && decide (h2 = '-') &&
      isDigitCh d1 && isDigitCh d2
  | _ => false

/-- First stage of `CLIENT_COMMAND_REGEX.match`: the group `(?P<name>[A-Z]*)`
followed by a literal space.  Since the class `[A-Z]` cannot match a space,
the only candidate for the group is the maximal uppercase prefix; the match
survives exactly when the next character is the space. -/
def afterName (s : List Char) : Option (List Char × List Char) :=
  match s.dropWhile isUpper with
  | c :: rest => if c = ' ' then some (s.takeWhile isUpper, rest) else none
  | [] => none

/-- Final stage of the regex: `(?P<symbols>[A-Z,:;|]*)$` under Python
semantics, where `$` matches at the end of the string or just before a
newline that is the last character. -/
def matchTail (rest : List Char) : Option (List Char) :=
  if rest.all isSymCh then some rest
  else if decide (rest.getLast? = some '\n') && rest.dropLast.all isSymCh then
    some rest.dropLast
  else none

/-- Embedding of `CLIENT_COMMAND_REGEX.match` (rate_server.py lines 34-40 and
88-89): on success it returns the three captured groups
`(name, date, symbols)`. -/
def clientCommandMatch (s : List Char) :
    Option (List Char × List Char × List Char) :=
  match afterName s with
  | none => none
  | some (name, rest2) =>
    let date := rest2.take 10
    if dateFormat date then
      match rest2.drop 10 with
      | c :: rest4 =>
        if c = ' ' then (matchTail rest4).map (fun syms => (name, date, syms))
        else none
      | [] => none
    else none

/-- Embedding of `re.split(r"[,:;|]", symbols)` (lines 114-117): split into
fields, keeping empty fields, so the empty input yields one empty field. -/
def splitSeps (l : List Char) : List (List Char) :=
  l.foldr
    (fun c acc =>
      if isSep c then [] :: acc
      else
        match acc with
        | f :: fs => (c :: f) :: fs
        | [] => [[c]])
    [[]]

/-- Numeric value of a digit string. -/
def digitsToNat (l : List Char) : Nat :=
  l.foldl (fun n c => n * 10 + (c.toNat - 48)) 0

/-- Gregorian leap-year test, as used by Python's calendar validation. -/
def isLeap (y : Nat) : Bool :=
  (decide (y % 4 = 0) && decide (y % 100 ≠ 0)) || decide (y % 400 = 0)

/-- Number of days of month `m` in year `y`. -/
def daysInMonth (y m : Nat) : Nat :=
  if m = 2 then (if isLeap y then 29 else 28)
  else if m = 4 ∨ m = 6 ∨ m = 9 ∨ m = 11 then 30
  else 31

/-- Embedding of `datetime.strptime(date, "%Y-%m-%d")` (lines 111-112) on the
zero-padded inputs the regex guarantees: it yields the `(year, month, day)`
triple when the digits denote a real calendar date, and `none` when the
library would raise `ValueError` (month or day out of range, year 0). -/
def strptimeYMD (l : List Char) : Option (Nat × Nat × Nat) :=
  if dateFormat l then
    let y := digitsToNat (l.take 4)
    let m := digitsToNat ((l.drop 5).take 2)
    let d := digitsToNat ((l.drop 8).take 2)
    if decide (1 ≤ y) && decide (1 ≤ m) && decide (m ≤ 12) && decide (1 ≤ d)
        && decide (d ≤ daysInMonth y m) then
      some (y, m, d)
    else none
  else none

/-- One row of the `rates` table: `(closingdate, currencysymbol,
exchangerate)`.  The exchange rate is carried in its decimal string
rendering, which is all the pipeline ever does with it. -/
structure RateQuote where
  closingdate : Nat × Nat × Nat
  currencysymbol : List Char
  exchangerate : List Char
deriving DecidableEq

/-- Lexicographic order on symbols by character code, the order produced by
the SQL `order by currencysymbol`. -/
def symbolLe (a b : List Char) : Bool :=
  match a, b with
  | [], _ => true
  | _ :: _, [] => false
  | x :: xs, y :: ys =>
    if x.toNat < y.toNat then true
    else if y.toNat < x.toNat then false
    else symbolLe xs ys

/-- Row comparison used to realise `order by currencysymbol`. -/
def rowLe (a b : RateQuote) : Bool :=
  symbolLe a.currencysymbol b.currencysymbol

/-- Ordered insertion used by `sortRows`. -/
def insertRow (r : RateQuote) : List RateQuote → List RateQuote
  | [] => [r]
  | x :: xs => if rowLe r x then r :: x :: xs else x :: insertRow r xs

/-- Sorting of the result rows by currency symbol, realising the SQL
`order by currencysymbol` clause of the lookup (line 129). -/
def sortRows : List RateQuote → List RateQuote
  | [] => []
  | x :: xs => insertRow x (sortRows xs)

/-- Boolean membership of a symbol in a symbol list, the semantics of both
the SQL `in (...)` clause and the Python `in` test on the set of cached
symbols. -/
def containsSym (l : List (List Char)) (s : List Char) : Bool :=
  l.any (fun x => decide (x = s))

/-- Embedding of the SQL lookup (lines 119-129): `select closingdate,
currencysymbol, exchangerate from rates where closingdate = ? and
currencysymbol in (...) order by currencysymbol`. -/
def lookupMany (rows : List RateQuote) (d : Nat × Nat × Nat)
    (syms : List (List Char)) : List RateQuote :=
  sortRows (rows.filter
    (fun r => decide (r.closingdate = d) && containsSym syms r.currencysymbol))

/-- Exceptions, classified by the only thing `run` cares about: membership in
the `OSError` family, which is the sole family its handler catches.
`requests` network failures are `OSError`s; `ValueError` (strptime, JSON),
`KeyError` (symbol absent upstream) and `pyodbc.Error` are not. -/
inductive Exn
  | osError
  | otherError
deriving DecidableEq

instance {e a : Type} [DecidableEq e] [DecidableEq a] :
    DecidableEq (Except e a) := fun x y =>
  match x, y with
  | .ok a, .ok b =>
    if h : a = b then isTrue (by rw [h])
    else isFalse (fun hh => h (by injection hh))
  | .error a, .error b =>
    if h : a = b then isTrue (by rw [h])
    else isFalse (fun hh => h (by injection hh))
  | .ok _, .error _ => isFalse (fun hh => by injection hh)
  | .error _, .ok _ => isFalse (fun hh => by injection hh)

/-- Observable actions of a session, in program order. -/
inductive Effect
  | lookup (d : Nat × Nat × Nat) (syms : List (List Char))
  | fetch (sym : List Char)
  | insertBatch (rows : List RateQuote)
  | send (msg : List Char)
  | decrementAndLogDisconnect
deriving DecidableEq

/-- One response line `f"{symbol}: {rate}"` (lines 140-141 and 165-166). -/
def renderQuoteLine (sym rate : List Char) : List Char :=
  sym ++ ':' :: ' ' :: rate

/-- Embedding of `"\n".join(rate_responses)` (line 169). -/
def joinNL (lines : List (List Char)) : List Char :=
  List.intercalate ['\n'] lines

/-- Success test for a provider call. -/
def isOkE (e : Except Exn (List Char)) : Bool :=
  match e with
  | .ok _ => true
  | .error _ => false

/-- Value of a successful provider call (defaulting on the error case, which
callers rule out). -/
def okD (e : Except Exn (List Char)) : List Char :=
  match e with
  | .ok v => v
  | .error _ => []

/-- Semantics of `list(executor.map(...))` (lines 143-149): results are
collected in input order and the first failure re-raises when consumed.  All
tasks are submitted eagerly, so a failure never prevents sibling calls from
being issued. -/
def collectResults : List (Except Exn (List Char)) →
    Except Exn (List (List Char))
  | [] => .ok []
  | .error e :: _ => .error e
  | .ok r :: rest =>
    match collectResults rest with
    | .error e => .error e
    | .ok rs => .ok (r :: rs)

/-- Result of one `process_client_command` call: the ordered effects it
performed, the store rows afterwards, and the exception escaping it, if
any. -/
structure ProcResult where
  effects : List Effect
  rows : List RateQuote
  exn : Option Exn
deriving DecidableEq

/-- Embedding of `ClientConnectionThread.process_client_command`
(lines 104-171).  `store` is the rows of the `rates` table, `storeFail`
records whether `pyodbc.connect` raises, `provider` is
`get_rate_from_api`, and the three string arguments are the regex groups of
the matched command. -/
def process_client_command (store : List RateQuote) (storeFail : Bool)
    (provider : Nat × Nat × Nat → List Char → Except Exn (List Char))
    (name dateStr symbolsStr : List Char) : ProcResult :=
  if name = ("GET").toList then
    if storeFail then ⟨[], store, some .otherError⟩
    else
      match strptimeYMD dateStr with
      | none => ⟨[], store, some .otherError⟩
      | some closing_date =>
        let currency_symbols := splitSeps symbolsStr
        let hits := lookupMany store closing_date currency_symbols
        let cached := hits.map (fun r => r.currencysymbol)
        let rate_responses :=
          hits.map (fun r => renderQuoteLine r.currencysymbol r.exchangerate)
        let missSyms :=
          currency_symbols.filter (fun s => !containsSym cached s)
        let fetchEffects := missSyms.map Effect.fetch
        match collectResults (missSyms.map (fun s => provider closing_date s))
          with
        | .error e =>
          ⟨Effect.lookup closing_date currency_symbols :: fetchEffects, store,
            some e⟩
        | .ok rates =>
          let currency_rates :=
            (missSyms.zip rates).map
              (fun p => RateQuote.mk closing_date p.1 p.2)
          if 0 < currency_rates.length then
            ⟨Effect.lookup closing_date currency_symbols :: fetchEffects ++
                [Effect.insertBatch currency_rates,
                 Effect.send (joinNL (rate_responses ++
                   currency_rates.map
                     (fun q => renderQuoteLine q.currencysymbol
                       q.exchangerate)))],
              store ++ currency_rates, none⟩
          else
            ⟨Effect.lookup closing_date currency_symbols :: fetchEffects ++
                [Effect.send (joinNL rate_responses)],
              store, none⟩
  else ⟨[Effect.send ("Invalid Command Name").toList], store, none⟩

/-- One observable outcome of `self.conn.recv(2048)` (line 81): the peer
closed (empty read), the read raised an `OSError`, or a decoded command
line arrived. -/
inductive RecvEvent
  | closed
  | oserr
  | data (s : List Char)
deriving DecidableEq

/-- How a session ends: the trace of receive events ran out while the thread
was still blocked reading, or the thread function returned (`exn = none`) or
died on an uncaught exception (`exn = some e`). -/
inductive SessionEnd
  | awaitingInput
  | finished (exn : Option Exn)
deriving DecidableEq

/-- Result of running the body of `ClientConnectionThread.run`. -/
structure RunResult where
  effects : List Effect
  rows : List RateQuote
  outcome : SessionEnd
deriving DecidableEq

/-- Embedding of the receive loop of `ClientConnectionThread.run`
(lines 79-102).  The `try` block wraps the whole loop and its handler is
`except OSError: pass`; the decrement-and-log block (lines 100-102) runs
after the `try` statement, so it is reached on a normal loop exit (empty
read) and on a caught `OSError`, but not when another exception class
escapes the `try`. -/
def runLoop (provider : Nat × Nat × Nat → List Char → Except Exn (List Char))
    (storeFail : Bool) : List RateQuote → List RecvEvent → RunResult
  | store, [] => ⟨[], store, .awaitingInput⟩
  | store, .closed :: _ =>
    ⟨[Effect.decrementAndLogDisconnect], store, .finished none⟩
  | store, .oserr :: _ =>
    ⟨[Effect.decrementAndLogDisconnect], store, .finished none⟩
  | store, .data s :: rest =>
    match clientCommandMatch s with
    | none =>
      let r := runLoop provider storeFail store rest
      ⟨Effect.send ("Invalid Command Format").toList :: r.effects, r.rows,
        r.outcome⟩
    | some (name, dateStr, symbolsStr) =>
      let pr := process_client_command store storeFail provider name dateStr
        symbolsStr
      match pr.exn with
      | none =>
        let r := runLoop provider storeFail pr.rows rest
        ⟨pr.effects ++ r.effects, r.rows, r.outcome⟩
      | some .osError =>
        ⟨pr.effects ++ [Effect.decrementAndLogDisconnect], pr.rows,
          .finished none⟩
      | some .otherError =>
        ⟨pr.effects, pr.rows, .finished (some .otherError)⟩

/-- Embedding of `ClientConnectionThread.run` (lines 75-102): the greeting
send of line 77 followed by the receive loop. -/
def runSession (provider : Nat × Nat × Nat → List Char → Except Exn (List Char))
    (store : List RateQuote) (storeFail : Bool) (events : List RecvEvent) :
    RunResult :=
  let r := runLoop provider storeFail store events
  ⟨Effect.send ("Connected to the Rate Server").toList :: r.effects, r.rows,
    r.outcome⟩

/-- Selector for `sendall` payloads. -/
def sendSel : Effect → Option (List Char)
  | .send m => some m
  | _ => none

/-- Selector for `get_rate_from_api` calls. -/
def fetchSel : Effect → Option (List Char)
  | .fetch s => some s
  | _ => none

/-- Selector for `cur.executemany` batches. -/
def insertSel : Effect → Option (List RateQuote)
  | .insertBatch b => some b
  | _ => none

/-- Messages passed to `sendall`, in order. -/
def sentMessages (l : List Effect) : List (List Char) :=
  l.filterMap sendSel

/-- Symbols passed to `get_rate_from_api`, in order, one entry per call. -/
def fetchedSymbols (l : List Effect) : List (List Char) :=
  l.filterMap fetchSel

/-- Row batches passed to `cur.executemany`, in order, one entry per call. -/
def insertBatches (l : List Effect) : List (List RateQuote) :=
  l.filterMap insertSel

/-- Test for the decrement-and-log-disconnect block. -/
def isDisconnectEff : Effect → Bool
  | .decrementAndLogDisconnect => true
  | _ => false

/-- Number of times the decrement-and-log-disconnect block ran. -/
def countDisconnects (l : List Effect) : Nat :=
  l.countP isDisconnectEff

/-- Number of disconnect blocks each kind of session end implies. -/
def expectedDisconnects : SessionEnd → Nat
  | .finished none => 1
  | _ => 0

/-- One atomic update of the shared `client_count`.  In the code both
updates run while holding `client_count.get_lock()` (lines 100-101 and
188-189), so each read-modify-write is a single indivisible step; an
interleaving of sessions is therefore a sequence of such steps. -/
inductive CounterOp
  | inc
  | dec
deriving DecidableEq

/-- Test for the connect update. -/
def isInc : CounterOp → Bool
  | .inc => true
  | .dec => false

/-- Test for the disconnect update. -/
def isDec : CounterOp → Bool
  | .inc => false
  | .dec => true

/-- Value of `client_count` after a sequence of atomic updates. -/
def applyCounterOps (start : Int) (ops : List CounterOp) : Int :=
  ops.foldl
    (fun v op =>
      match op with
      | .inc => v + 1
      | .dec => v - 1)
    start

/-- Scheduling events of the supervisor and its sessions, tagged by session
id: the accept loop starting the session thread (line 186), the locked
increment (lines 188-189), and the session's locked decrement
(lines 100-101). -/
inductive SupEvent
  | startThread (sid : Nat)
  | incr (sid : Nat)
  | decr (sid : Nat)
deriving DecidableEq

/-- Session id an event belongs to. -/
def eventSid : SupEvent → Nat
  | .startThread s => s
  | .incr s => s
  | .decr s => s

/-- Subsequence of a trace belonging to one session. -/
def sessionTrace (sid : Nat) (t : List SupEvent) : List SupEvent :=
  t.filter (fun e => decide (eventSid e = sid))

/-- Program order the code imposes on one session's events: the accept loop
runs `start()` and then the increment (lines 185-189), and the decrement
runs inside the thread the `start()` call spawned, so `startThread` precedes
both; the code orders the increment and the decrement of one session in no
way relative to each other. -/
def sessionOrderOk (sid : Nat) (l : List SupEvent) : Prop :=
  l = [] ∨ l = [.startThread sid] ∨
    l = [.startThread sid, .incr sid] ∨
    l = [.startThread sid, .decr sid] ∨
    l = [.startThread sid, .incr sid, .decr sid] ∨
    l = [.startThread sid, .decr sid, .incr sid]

/-- A trace is a thread interleaving the code can produce: per session, its
events respect the program order above. -/
def validTrace (t : List SupEvent) : Prop :=
  ∀ sid, sessionOrderOk sid (sessionTrace sid t)

/-- Value of `client_count` after a scheduling trace, starting from 0. -/
def counterAfter (t : List SupEvent) : Int :=
  t.foldl
    (fun v e =>
      match e with
      | .incr _ => v + 1
      | .decr _ => v - 1
      | .startThread _ => v)
    0

/-- Grammar claimed by the specification for a valid command line: one or
more uppercase letters, a space, the date shape, a space, then a non-empty
symbols field, with no trailing content.  The command-name group cannot
match a space, so the only candidate split is at the maximal uppercase
prefix, which makes the grammar decidable by this direct scan. -/
def specValidLineB (s : List Char) : Bool :=
  match afterName s with
  | none => false
  | some (name, rest2) =>
    decide (name ≠ []) && dateFormat (rest2.take 10) &&
      (match rest2.drop 10 with
       | c :: rest4 => decide (c = ' ') && decide (rest4 ≠ []) &&
           rest4.all isSymCh
       | [] => false)

/-- Language the implemented regex actually accepts, stated as a
decomposition: zero or more uppercase letters, a space, the date shape, a
space, a possibly empty symbols field, and then either nothing or one final
newline (Python's `$` matches just before a terminal newline). -/
def amendedValidLine (s : List Char) : Prop :=
  ∃ name date syms tail : List Char,
    s = name ++ ' ' :: (date ++ ' ' :: (syms ++ tail)) ∧
      name.all isUpper = true ∧ dateFormat date = true ∧
      syms.all isSymCh = true ∧ (tail = [] ∨ tail = ['\n'])

/-- Cache hits of a GET request: the local `rate_responses` source rows
(lines 131-141). -/
def hitsOf (store : List RateQuote) (d : Nat × Nat × Nat)
    (symbolsStr : List Char) : List RateQuote :=
  lookupMany store d (splitSeps symbolsStr)

/-- Response lines built from the cache hits, in lookup order. -/
def hitLinesOf (store : List RateQuote) (d : Nat × Nat × Nat)
    (symbolsStr : List Char) : List (List Char) :=
  (hitsOf store d symbolsStr).map
    (fun r => renderQuoteLine r.currencysymbol r.exchangerate)

/-- Miss list of a GET request: the comprehension of lines 146-148, one
entry per occurrence of a requested symbol that is not cached. -/
def missSymsOf (store : List RateQuote) (d : Nat × Nat × Nat)
    (symbolsStr : List Char) : List (List Char) :=
  (splitSeps symbolsStr).filter
    (fun s =>
      !containsSym ((hitsOf store d symbolsStr).map
        (fun r => r.currencysymbol)) s)

/-- Rows a fully successful fetch round produces: the local
`currency_rates` (lines 144-149). -/
def batchOf (provider : Nat × Nat × Nat → List Char → Except Exn (List Char))
    (store : List RateQuote) (d : Nat × Nat × Nat) (symbolsStr : List Char) :
    List RateQuote :=
  (missSymsOf store d symbolsStr).map
    (fun s => RateQuote.mk d s (okD (provider d s)))

/-- Provider that always answers; used to instantiate theorems. -/
def demoProvider : Nat × Nat × Nat → List Char → Except Exn (List Char) :=
  fun _ _ => .ok ("1.00").toList

/-- Provider that fails for EUR and answers for every other symbol; used to
instantiate theorems about provider failure. -/
def demoFailProvider : Nat × Nat × Nat → List Char → Except Exn (List Char) :=
  fun _ s => if s = ("EUR").toList then .error .otherError
    else .ok ("1.00").toList

/-- Two-row store used to instantiate theorems. -/
def demoStore : List RateQuote :=
  [RateQuote.mk (2023, 1, 1) ("USD").toList ("1.10").toList,
   RateQuote.mk (2023, 1, 1) ("EUR").toList ("0.92").toList]

/-! Helper lemmas about the embedded operations. -/

theorem containsSym_iff (l : List (List Char)) (s : List Char) :
    containsSym l s = true ↔ s ∈ l := by
  induction l with
  | nil => simp [containsSym]
  | cons x xs ih =>
    simp only [containsSym, List.any_cons, Bool.or_eq_true, decide_eq_true_eq,
      List.mem_cons] at ih ⊢
    constructor
    · rintro (h | h)
      · exact Or.inl h.symm
      · exact Or.inr (ih.mp h)
    · rintro (h | h)
      · exact Or.inl h.symm
      · exact Or.inr (ih.mpr h)

theorem splitSeps_ne_nil (l : List Char) : splitSeps l ≠ [] := by
  induction l with
  | nil => simp [splitSeps]
  | cons c t ih =>
    show (if isSep c then [] :: splitSeps t
      else match splitSeps t with
        | f :: fs => (c :: f) :: fs
        | [] => [[c]]) ≠ []
    by_cases hc : isSep c = true
    · simp [hc]
    · cases h : splitSeps t with
      | nil => simp [hc, h]
      | cons f fs => simp [hc, h]

theorem collectResults_map_ok
    (f : List Char → Except Exn (List Char)) (l : List (List Char))
    (hp : ∀ s ∈ l, isOkE (f s) = true) :
    collectResults (l.map f) = .ok (l.map (fun s => okD (f s))) := by
  induction l with
  | nil => rfl
  | cons a t ih =>
    have ha := hp a (List.mem_cons_self a t)
    cases hfa : f a with
    | error e => rw [hfa] at ha; simp [isOkE] at ha
    | ok v =>
      have ht := ih (fun s hs => hp s (List.mem_cons_of_mem a hs))
      simp [collectResults, hfa, ht, okD]

theorem zip_self_map (g : List Char → List Char)
    (h : List Char × List Char → RateQuote) (l : List (List Char)) :
    (l.zip (l.map g)).map h = l.map (fun a => h (a, g a)) := by
  induction l with
  | nil => rfl
  | cons a t ih => simp [ih]

theorem symbolLe_total (a b : List Char) :
    symbolLe a b = true ∨ symbolLe b a = true := by
  induction a generalizing b with
  | nil => left; cases b <;> rfl
  | cons x xs ih =>
    cases b with
    | nil => right; rfl
    | cons y ys =>
      rcases Nat.lt_trichotomy x.toNat y.toNat with hlt | heq | hgt
      · left; simp [symbolLe, hlt]
      · have h1 : ¬ x.toNat < y.toNat := by omega
        have h2 : ¬ y.toNat < x.toNat := by omega
        rcases ih ys with h | h
        · left; simp [symbolLe, h1, h2, h]
        · right; simp [symbolLe, h1, h2, h]
      · right; simp [symbolLe, hgt]

theorem rowLe_total (a b : RateQuote) :
    rowLe a b = true ∨ rowLe b a = true :=
  symbolLe_total a.currencysymbol b.currencysymbol

theorem mem_insertRow (a r : RateQuote) (l : List RateQuote) :
    a ∈ insertRow r l ↔ a = r ∨ a ∈ l := by
  induction l with
  | nil => simp [insertRow]
  | cons x xs ih =>
    by_cases hx : rowLe r x = true
    · simp [insertRow, hx]
    · simp only [insertRow, hx, if_neg, Bool.not_eq_true, ite_false,
        List.mem_cons, ih]
      tauto

theorem mem_sortRows (a : RateQuote) (l : List RateQuote) :
    a ∈ sortRows l ↔ a ∈ l := by
  induction l with
  | nil => simp [sortRows]
  | cons x xs ih => simp [sortRows, mem_insertRow, ih]

theorem chain'_insertRow (r : RateQuote) (l : List RateQuote)
    (h : List.Chain' (fun a b => rowLe a b = true) l) :
    List.Chain' (fun a b => rowLe a b = true) (insertRow r l) := by
  induction l with
  | nil => simp [insertRow]
  | cons x xs ih =>
    by_cases hrx : rowLe r x = true
    · simpa [insertRow, hrx, List.chain'_cons] using And.intro hrx h
    · have hxr : rowLe x r = true := (rowLe_total r x).resolve_left hrx
      cases xs with
      | nil => simp [insertRow, hrx, List.chain'_cons, hxr]
      | cons y ys =>
        have hxy : rowLe x y = true := (List.chain'_cons.mp h).1
        have h2 : List.Chain' (fun a b => rowLe a b = true) (y :: ys) :=
          (List.chain'_cons.mp h).2
        by_cases hry : rowLe r y = true
        · simp only [insertRow, hrx, ite_false, hry, ite_true,
            Bool.not_eq_true]
          exact List.chain'_cons.mpr ⟨hxr, List.chain'_cons.mpr ⟨hry, h2⟩⟩
        · have h3 := ih h2
          simp only [insertRow, hrx, hry, ite_false, Bool.not_eq_true] at h3 ⊢
          exact List.chain'_cons.mpr ⟨hxy, h3⟩

theorem chain'_sortRows (l : List RateQuote) :
    List.Chain' (fun a b => rowLe a b = true) (sortRows l) := by
  induction l with
  | nil => simp [sortRows]
  | cons x xs ih => exact chain'_insertRow x (sortRows xs) ih

theorem process_get_ok (store : List RateQuote)
    (provider : Nat × Nat × Nat → List Char → Except Exn (List Char))
    (dateStr symbolsStr : List Char) (d : Nat × Nat × Nat)
    (hd : strptimeYMD dateStr = some d)
    (hp : ∀ s ∈ missSymsOf store d symbolsStr, isOkE (provider d s) = true) :
    process_client_command store false provider ("GET").toList dateStr
        symbolsStr =
      ⟨Effect.lookup d (splitSeps symbolsStr) ::
          ((missSymsOf store d symbolsStr).map Effect.fetch ++
          (if missSymsOf store d symbolsStr = [] then
            [Effect.send (joinNL (hitLinesOf store d symbolsStr))]
          else
            [Effect.insertBatch (batchOf provider store d symbolsStr),
             Effect.send (joinNL (hitLinesOf store d symbolsStr ++
               (batchOf provider store d symbolsStr).map
                 (fun q => renderQuoteLine q.currencysymbol q.exchangerate)))])),
        store ++ batchOf provider store d symbolsStr, none⟩ := by
  have hcoll := collectResults_map_ok (provider d) (missSymsOf store d symbolsStr) hp
  unfold process_client_command
  rw [if_pos rfl, if_neg (by simp), hd]
  simp only [missSymsOf, hitsOf, hitLinesOf] at hcoll ⊢
  rw [hcoll]
  simp only [zip_self_map]
  by_cases hm : (splitSeps symbolsStr).filter
      (fun s => !containsSym ((lookupMany store d (splitSeps symbolsStr)).map
        (fun r => r.currencysymbol)) s) = []
  · simp [hm, batchOf, missSymsOf, hitsOf, hitLinesOf]
  · have hlen : 0 < ((splitSeps symbolsStr).filter
        (fun s => !containsSym ((lookupMany store d (splitSeps symbolsStr)).map
          (fun r => r.currencysymbol)) s)).length := by
      cases h : (splitSeps symbolsStr).filter
        (fun s => !containsSym ((lookupMany store d (splitSeps symbolsStr)).map
          (fun r => r.currencysymbol)) s) with
      | nil => exact absurd h hm
      | cons a t => simp
    simp [hm, hlen, batchOf, missSymsOf, hitsOf, hitLinesOf]

theorem process_get_error (store : List RateQuote)
    (provider : Nat × Nat × Nat → List Char → Except Exn (List Char))
    (dateStr symbolsStr : List Char) (d : Nat × Nat × Nat) (e : Exn)
    (hd : strptimeYMD dateStr = some d)
    (hc : collectResults ((missSymsOf store d symbolsStr).map
      (fun s => provider d s)) = .error e) :
    process_client_command store false provider ("GET").toList dateStr
        symbolsStr =
      ⟨Effect.lookup d (splitSeps symbolsStr) ::
          (missSymsOf store d symbolsStr).map Effect.fetch,
        store, some e⟩ := by
  unfold process_client_command
  rw [if_pos rfl, if_neg (by simp), hd]
  simp only [missSymsOf, hitsOf] at hc ⊢
  rw [hc]

theorem filterMap_fetchSel_fetch (l : List (List Char)) :
    List.filterMap (fetchSel ∘ Effect.fetch) l = l := by
  induction l with
  | nil => rfl
  | cons a t ih =>
    simp only [List.filterMap_cons, Function.comp, fetchSel, ih]

theorem filterMap_sendSel_fetch (l : List (List Char)) :
    List.filterMap (sendSel ∘ Effect.fetch) l = [] := by
  induction l with
  | nil => rfl
  | cons a t ih =>
    simp only [List.filterMap_cons, Function.comp, sendSel, ih]

theorem filterMap_insertSel_fetch (l : List (List Char)) :
    List.filterMap (insertSel ∘ Effect.fetch) l = [] := by
  induction l with
  | nil => rfl
  | cons a t ih =>
    simp only [List.filterMap_cons, Function.comp, insertSel, ih]

theorem collectResults_all_ok (f : List Char → Except Exn (List Char)) :
    ∀ (l : List (List Char)) (rates : List (List Char)),
      collectResults (l.map f) = .ok rates →
      ∀ s ∈ l, isOkE (f s) = true := by
  intro l
  induction l with
  | nil => intro rates _ s hs; simp at hs
  | cons a t ih =>
    intro rates hc s hs
    rw [List.map_cons] at hc
    cases hfa : f a with
    | error e => rw [hfa] at hc; simp [collectResults] at hc
    | ok v =>
      rw [hfa] at hc
      simp only [collectResults] at hc
      cases hct : collectResults (t.map f) with
      | error e => rw [hct] at hc; cases hc
      | ok rs =>
        rcases List.mem_cons.mp hs with rfl | hs2
        · simp [isOkE, hfa]
        · exact ih rs hct s hs2

theorem countP_disconnect_map_fetch (l : List (List Char)) :
    List.countP isDisconnectEff (l.map Effect.fetch) = 0 := by
  induction l with
  | nil => rfl
  | cons a t ih =>
    simp only [List.map_cons, List.countP_cons] at ih ⊢
    simp [ih, isDisconnectEff]

theorem process_no_disconnects (store : List RateQuote) (storeFail : Bool)
    (provider : Nat × Nat × Nat → List Char → Except Exn (List Char))
    (name dateStr symbolsStr : List Char) :
    countDisconnects (process_client_command store storeFail provider name
      dateStr symbolsStr).effects = 0 := by
  simp only [process_client_command, countDisconnects]
  split
  · split
    · rfl
    · split
      · rfl
      · split
        · simp [List.countP_cons, countP_disconnect_map_fetch, isDisconnectEff]
        · split
          · simp [List.countP_cons, List.countP_append,
              countP_disconnect_map_fetch, isDisconnectEff]
          · simp [List.countP_cons, List.countP_append,
              countP_disconnect_map_fetch, isDisconnectEff]
  · simp [isDisconnectEff]

/-! Claim theorems. -/

/-- Claim C1, counterexample.  For the request `GET 2023-01-01 USD,EUR` on
an empty store (a miss set of N = 2 symbols) with a provider that fails for
EUR only, the claim says the client still receives exactly N − 1 = 1
resolved line and no error occurs.  The code instead lets the exception of
`list(executor.map(...))` escape `process_client_command`: nothing at all is
sent, nothing is inserted, and the exception propagates (both provider
calls are still issued, since the executor submits all tasks eagerly). -/
theorem C1_counterexample :
    (process_client_command [] false demoFailProvider ("GET").toList
      ("2023-01-01").toList ("USD,EUR").toList).exn = some Exn.otherError ∧
    sentMessages (process_client_command [] false demoFailProvider
      ("GET").toList ("2023-01-01").toList ("USD,EUR").toList).effects = [] ∧
    fetchedSymbols (process_client_command [] false demoFailProvider
      ("GET").toList ("2023-01-01").toList ("USD,EUR").toList).effects =
      [("USD").toList, ("EUR").toList] := by decide

/-- Claim C1 as amended.  When the provider fails for any miss symbol, the
fetch round still issues one call per miss occurrence (sibling fetches are
not cancelled), but `process_client_command` does not complete: the first
failure re-raises when the results are consumed, so no response is sent to
the client, nothing is inserted, the store is unchanged, and the exception
escapes (ending the session: with disconnect bookkeeping when it is an
`OSError`, killing the thread otherwise). -/
theorem C1_amended (store : List RateQuote)
    (provider : Nat × Nat × Nat → List Char → Except Exn (List Char))
    (dateStr symbolsStr : List Char) (d : Nat × Nat × Nat) (e : Exn)
    (hd : strptimeYMD dateStr = some d)
    (hc : collectResults ((missSymsOf store d symbolsStr).map
      (fun s => provider d s)) = .error e) :
    fetchedSymbols (process_client_command store false provider
        ("GET").toList dateStr symbolsStr).effects =
      missSymsOf store d symbolsStr ∧
    sentMessages (process_client_command store false provider
      ("GET").toList dateStr symbolsStr).effects = [] ∧
    insertBatches (process_client_command store false provider
      ("GET").toList dateStr symbolsStr).effects = [] ∧
    (process_client_command store false provider
      ("GET").toList dateStr symbolsStr).rows = store ∧
    (process_client_command store false provider
      ("GET").toList dateStr symbolsStr).exn = some e := by
  rw [process_get_error store provider dateStr symbolsStr d e hd hc]
  refine ⟨?_, ?_, ?_, rfl, rfl⟩
  · simp [fetchedSymbols, List.filterMap_cons, fetchSel,
      filterMap_fetchSel_fetch]
  · simp [sentMessages, List.filterMap_cons, sendSel,
      filterMap_sendSel_fetch]
  · simp [insertBatches, List.filterMap_cons, insertSel,
      filterMap_insertSel_fetch]

/-- Witness for C1_amended at the concrete failing request of the
counterexample. -/
theorem C1_amended_witness :
    strptimeYMD ("2023-01-01").toList = some (2023, 1, 1) ∧
    collectResults ((missSymsOf [] (2023, 1, 1) ("USD,EUR").toList).map
      (fun s => demoFailProvider (2023, 1, 1) s)) =
      .error Exn.otherError ∧
    sentMessages (process_client_command [] false demoFailProvider
      ("GET").toList ("2023-01-01").toList ("USD,EUR").toList).effects = [] :=
  ⟨by decide, by decide,
    (C1_amended [] demoFailProvider ("2023-01-01").toList
      ("USD,EUR").toList (2023, 1, 1) Exn.otherError (by decide)
      (by decide)).2.1⟩

/-- Claim C2, counterexample.  The request `GET 2023-01-01 USD,USD` on an
empty store fetches USD from the provider twice and hands the insert two
rows: `request.symbols` is not deduplicated before fetching or inserting,
contradicting "fetched at most once and inserted at most once". -/
theorem C2_counterexample :
    fetchedSymbols (process_client_command [] false demoProvider
      ("GET").toList ("2023-01-01").toList ("USD,USD").toList).effects =
      [("USD").toList, ("USD").toList] ∧
    insertBatches (process_client_command [] false demoProvider
      ("GET").toList ("2023-01-01").toList ("USD,USD").toList).effects =
      [[RateQuote.mk (2023, 1, 1) ("USD").toList ("1.00").toList,
        RateQuote.mk (2023, 1, 1) ("USD").toList ("1.00").toList]] := by
  decide

/-- Claim C2 as amended.  The symbols are split and used as-is: the one
store lookup receives the raw occurrence list (whose SQL `in` clause is
membership-based, so duplicate hits are not duplicated in the result), and
the provider is then called once per occurrence of each non-cached symbol —
a symbol repeated in the request is fetched and inserted once per
occurrence, not at most once. -/
theorem C2_amended (store : List RateQuote)
    (provider : Nat × Nat × Nat → List Char → Except Exn (List Char))
    (dateStr symbolsStr : List Char) (d : Nat × Nat × Nat)
    (hd : strptimeYMD dateStr = some d) :
    (process_client_command store false provider ("GET").toList dateStr
        symbolsStr).effects.head? =
      some (Effect.lookup d (splitSeps symbolsStr)) ∧
    fetchedSymbols (process_client_command store false provider
        ("GET").toList dateStr symbolsStr).effects =
      missSymsOf store d symbolsStr := by
  cases hc : collectResults ((missSymsOf store d symbolsStr).map
      (fun s => provider d s)) with
  | error e =>
    rw [process_get_error store provider dateStr symbolsStr d e hd hc]
    exact ⟨rfl, by simp [fetchedSymbols, List.filterMap_cons, fetchSel,
      filterMap_fetchSel_fetch]⟩
  | ok rates =>
    have hp : ∀ s ∈ missSymsOf store d symbolsStr,
        isOkE (provider d s) = true :=
      collectResults_all_ok (fun s => provider d s)
        (missSymsOf store d symbolsStr) rates hc
    rw [process_get_ok store provider dateStr symbolsStr d hd hp]
    refine ⟨rfl, ?_⟩
    by_cases hm : missSymsOf store d symbolsStr = []
    · simp [hm, fetchedSymbols, List.filterMap_cons, List.filterMap_append,
        fetchSel, sendSel, filterMap_fetchSel_fetch]
    · simp [hm, fetchedSymbols, List.filterMap_cons, List.filterMap_append,
        fetchSel, sendSel, insertSel, filterMap_fetchSel_fetch]

/-- Witness for C2_amended at the duplicate request of the counterexample. -/
theorem C2_amended_witness :
    strptimeYMD ("2023-01-01").toList = some (2023, 1, 1) ∧
    fetchedSymbols (process_client_command [] false demoProvider
        ("GET").toList ("2023-01-01").toList ("USD,USD").toList).effects =
      missSymsOf [] (2023, 1, 1) ("USD,USD").toList :=
  ⟨by decide,
    (C2_amended [] demoProvider ("2023-01-01").toList ("USD,USD").toList
      (2023, 1, 1) (by decide)).2⟩

/-- Claim C5, counterexample.  With the persistence layer failing
(`pyodbc.connect` raising) and the valid request `GET 2023-01-01 USD`, the
claim says the session treats the failure as "all misses", fetches every
requested symbol and still answers.  The code instead lets the `pyodbc`
exception (not an `OSError`) escape: the session issues no provider call,
sends nothing beyond the greeting, performs no disconnect bookkeeping, and
the thread dies on the exception. -/
theorem C5_counterexample :
    (runSession demoProvider [] true
      [RecvEvent.data ("GET 2023-01-01 USD").toList]).outcome =
      SessionEnd.finished (some Exn.otherError) ∧
    fetchedSymbols (runSession demoProvider [] true
      [RecvEvent.data ("GET 2023-01-01 USD").toList]).effects = [] ∧
    sentMessages (runSession demoProvider [] true
      [RecvEvent.data ("GET 2023-01-01 USD").toList]).effects =
      [("Connected to the Rate Server").toList] ∧
    countDisconnects (runSession demoProvider [] true
      [RecvEvent.data ("GET 2023-01-01 USD").toList]).effects = 0 := by
  decide

/-- Claim C5 as amended.  A store failure on a GET command is an uncaught
exception: `process_client_command` performs no effect at all — no
lookup, no provider fetch, no response — leaves the store unchanged, and
raises an exception outside the `OSError` family, which kills the session
thread. -/
theorem C5_amended (store : List RateQuote)
    (provider : Nat × Nat × Nat → List Char → Except Exn (List Char))
    (dateStr symbolsStr : List Char) :
    process_client_command store true provider ("GET").toList dateStr
      symbolsStr = ⟨[], store, some Exn.otherError⟩ := by
  unfold process_client_command
  rw [if_pos rfl, if_pos rfl]

/-- Claim C8.  Each `client_count` update runs as one indivisible step
under `client_count.get_lock()`, so an interleaving of sessions is a
sequence of atomic increments and decrements; after any such sequence with
M increments and N decrements the counter reads exactly M − N — no update
is lost, whatever the thread interleaving. -/
theorem C8_counter_exact (ops : List CounterOp) :
    applyCounterOps 0 ops =
      (ops.countP isInc : Int) - (ops.countP isDec : Int) := by
  have key : ∀ (l : List CounterOp) (v : Int),
      applyCounterOps v l = v + (l.countP isInc : Int) -
        (l.countP isDec : Int) := by
    intro l
    induction l with
    | nil => intro v; simp [applyCounterOps]
    | cons op t ih =>
      intro v
      cases op with
      | inc =>
        have h1 : applyCounterOps v (CounterOp.inc :: t) =
            applyCounterOps (v + 1) t := rfl
        rw [h1, ih]
        simp [List.countP_cons, isInc, isDec]
        ring
      | dec =>
        have h1 : applyCounterOps v (CounterOp.dec :: t) =
            applyCounterOps (v - 1) t := rfl
        rw [h1, ih]
        simp [List.countP_cons, isInc, isDec]
        ring
  have h0 := key ops 0
  rw [h0]
  ring

theorem countDisconnects_cons_send (m : List Char) (l : List Effect) :
    countDisconnects (Effect.send m :: l) = countDisconnects l := by
  simp [countDisconnects, List.countP_cons, isDisconnectEff]

theorem countDisconnects_append (l1 l2 : List Effect) :
    countDisconnects (l1 ++ l2) = countDisconnects l1 + countDisconnects l2 :=
  List.countP_append isDisconnectEff l1 l2

theorem runLoop_disconnects
    (provider : Nat × Nat × Nat → List Char → Except Exn (List Char))
    (storeFail : Bool) (events : List RecvEvent) :
    ∀ store : List RateQuote,
      countDisconnects (runLoop provider storeFail store events).effects =
        expectedDisconnects (runLoop provider storeFail store
          events).outcome := by
  induction events with
  | nil => intro store; rfl
  | cons ev rest ih =>
    intro store
    cases ev with
    | closed => rfl
    | oserr => rfl
    | data s =>
      cases hm : clientCommandMatch s with
      | none =>
        simp only [runLoop, hm, countDisconnects_cons_send]
        exact ih store
      | some g =>
        obtain ⟨name, dateStr, symbolsStr⟩ := g
        simp only [runLoop, hm]
        cases he : (process_client_command store storeFail provider name
            dateStr symbolsStr).exn with
        | none =>
          simp only [countDisconnects_append, process_no_disconnects,
            Nat.zero_add]
          exact ih _
        | some e =>
          cases e with
          | osError =>
            simp only [countDisconnects_append, process_no_disconnects,
              Nat.zero_add]
            rfl
          | otherError =>
            simp only [process_no_disconnects]
            rfl

/-- Claim C4, counterexample.  The line `GET 2023-99-99 USD` matches the
regex, but `strptime` raises `ValueError` on month 99; the exception is not
an `OSError`, so it escapes the handler of `run` and the thread dies on a
termination path that never runs the decrement-and-log block: the counter
is not decremented and no disconnect event is logged. -/
theorem C4_counterexample :
    countDisconnects (runSession demoProvider [] false
      [RecvEvent.data ("GET 2023-99-99 USD").toList]).effects = 0 ∧
    (runSession demoProvider [] false
      [RecvEvent.data ("GET 2023-99-99 USD").toList]).outcome =
      SessionEnd.finished (some Exn.otherError) := by decide

/-- Claim C4 as amended.  The decrement-and-log-disconnect block runs
exactly once on the termination paths that reach it — peer close, a
transport `OSError`, or an `OSError` raised while handling a command (the
`except OSError` handler swallows it and falls through) — and runs zero
times when the session thread terminates on any non-`OSError` exception
raised while handling a command, or is still blocked reading. -/
theorem C4_amended
    (provider : Nat × Nat × Nat → List Char → Except Exn (List Char))
    (store : List RateQuote) (storeFail : Bool) (events : List RecvEvent) :
    countDisconnects (runSession provider store storeFail events).effects =
      expectedDisconnects (runSession provider store storeFail
        events).outcome := by
  unfold runSession
  simp only [countDisconnects_cons_send]
  exact runLoop_disconnects provider storeFail events store

theorem startDecIncValid :
    validTrace [SupEvent.startThread 0, SupEvent.decr 0, SupEvent.incr 0] := by
  intro sid
  by_cases h : sid = 0
  · subst h
    right; right; right; right; right
    rfl
  · left
    have h0 : (0 : Nat) ≠ sid := fun hh => h hh.symm
    simp [sessionTrace, eventSid, List.filter, h0]

/-- Claim C9, counterexample.  The accept loop calls `start()` before the
locked increment (lines 185-189), so the spawned session may run to
completion and take the lock first: the interleaving `startThread, decr,
incr` respects every program-order constraint of the code, yet after its
first two events the counter reads −1 — the counter can be observed below
zero and a session's decrement can precede its own increment. -/
theorem C9_counterexample :
    validTrace [SupEvent.startThread 0, SupEvent.decr 0, SupEvent.incr 0] ∧
    counterAfter ([SupEvent.startThread 0, SupEvent.decr 0,
      SupEvent.incr 0].take 2) = -1 :=
  ⟨startDecIncValid, by decide⟩

/-- Claim C9 as amended.  Because the accept loop starts the session thread
before incrementing the counter, a session's decrement may precede its own
increment: there is a code-consistent interleaving whose per-session order
is exactly start-thread, decrement, increment and in which the counter is
observed at −1. -/
theorem C9_amended :
    ∃ t : List SupEvent, validTrace t ∧
      sessionTrace 0 t = [SupEvent.startThread 0, SupEvent.decr 0,
        SupEvent.incr 0] ∧
      counterAfter (t.take 2) = -1 :=
  ⟨[SupEvent.startThread 0, SupEvent.decr 0, SupEvent.incr 0],
    startDecIncValid, by decide, by decide⟩

/-- Claim C10.  The cache-hit rows of a GET request are produced by the SQL
`order by currencysymbol`: the lookup result is in ascending symbol order
(adjacent rows compare with `symbolLe`), and it depends only on which
symbols the request mentions, not on the order it lists them in. -/
theorem C10_hits_sorted (store : List RateQuote) (d : Nat × Nat × Nat)
    (syms1 syms2 : List (List Char)) (h : ∀ s, s ∈ syms1 ↔ s ∈ syms2) :
    lookupMany store d syms1 = lookupMany store d syms2 ∧
    List.Chain' (fun a b => symbolLe a b = true)
      ((lookupMany store d syms1).map (fun r => r.currencysymbol)) := by
  constructor
  · unfold lookupMany
    congr 1
    apply List.filter_congr
    intro r _
    have hcc : containsSym syms1 r.currencysymbol =
        containsSym syms2 r.currencysymbol := by
      by_cases hm : r.currencysymbol ∈ syms1
      · rw [(containsSym_iff _ _).mpr hm,
          (containsSym_iff _ _).mpr ((h _).mp hm)]
      · have hm2 : r.currencysymbol ∉ syms2 := fun hh => hm ((h _).mpr hh)
        have e1 : containsSym syms1 r.currencysymbol = false := by
          cases hcs : containsSym syms1 r.currencysymbol with
          | false => rfl
          | true => exact absurd ((containsSym_iff _ _).mp hcs) hm
        have e2 : containsSym syms2 r.currencysymbol = false := by
          cases hcs : containsSym syms2 r.currencysymbol with
          | false => rfl
          | true => exact absurd ((containsSym_iff _ _).mp hcs) hm2
        rw [e1, e2]
    rw [hcc]
  · unfold lookupMany
    refine (List.chain'_map _).mpr ?_
    simpa [rowLe] using chain'_sortRows (store.filter
      (fun r => decide (r.closingdate = d) &&
        containsSym syms1 r.currencysymbol))

/-- Witness for C10_hits_sorted: two requests mentioning EUR and USD in
different orders, with a repetition, over a two-row store. -/
theorem C10_witness :
    (∀ s : List Char, s ∈ [("EUR").toList, ("USD").toList] ↔
      s ∈ [("USD").toList, ("EUR").toList, ("USD").toList]) ∧
    lookupMany demoStore (2023, 1, 1) [("EUR").toList, ("USD").toList] =
      lookupMany demoStore (2023, 1, 1)
        [("USD").toList, ("EUR").toList, ("USD").toList] ∧
    List.Chain' (fun a b => symbolLe a b = true)
      ((lookupMany demoStore (2023, 1, 1)
        [("EUR").toList, ("USD").toList]).map
          (fun r => r.currencysymbol)) := by
  have hmem : ∀ s : List Char, s ∈ [("EUR").toList, ("USD").toList] ↔
      s ∈ [("USD").toList, ("EUR").toList, ("USD").toList] := by
    intro s
    simp only [List.mem_cons, List.not_mem_nil, or_false]
    tauto
  exact ⟨hmem,
    (C10_hits_sorted demoStore (2023, 1, 1) _ _ hmem).1,
    (C10_hits_sorted demoStore (2023, 1, 1) _ _ hmem).2⟩

theorem missSymsOf_all_miss (store : List RateQuote) (d : Nat × Nat × Nat)
    (symbolsStr : List Char)
    (hmiss : lookupMany store d (splitSeps symbolsStr) = []) :
    missSymsOf store d symbolsStr = splitSeps symbolsStr := by
  unfold missSymsOf hitsOf
  rw [hmiss]
  simp [containsSym]

theorem missSymsOf_all_hit (store : List RateQuote) (d : Nat × Nat × Nat)
    (symbolsStr : List Char)
    (hall : ∀ s ∈ splitSeps symbolsStr,
      containsSym ((hitsOf store d symbolsStr).map
        (fun r => r.currencysymbol)) s = true) :
    missSymsOf store d symbolsStr = [] := by
  unfold missSymsOf
  rw [List.filter_eq_nil_iff]
  intro s hs
  simp [hall s hs]

/-- Claim C3.  For a GET request all of whose symbols miss the store and
whose provider fetches all succeed, the effect trace is literally: the one
store lookup, one provider fetch per requested occurrence, then a single
batched insert of all fetched rows, then the send of the response — so the
insert happens once, as one batch, before the reply.  On the store those
effects produce, a second identical request issues zero provider fetches,
raises nothing, inserts nothing, and answers entirely from the store
lookup. -/
theorem C3_write_through (store : List RateQuote)
    (provider : Nat × Nat × Nat → List Char → Except Exn (List Char))
    (dateStr symbolsStr : List Char) (d : Nat × Nat × Nat)
    (hd : strptimeYMD dateStr = some d)
    (hmiss : lookupMany store d (splitSeps symbolsStr) = [])
    (hp : ∀ s ∈ splitSeps symbolsStr, isOkE (provider d s) = true) :
    (process_client_command store false provider ("GET").toList dateStr
        symbolsStr).effects =
      Effect.lookup d (splitSeps symbolsStr) ::
        ((splitSeps symbolsStr).map Effect.fetch ++
          [Effect.insertBatch (batchOf provider store d symbolsStr),
           Effect.send (joinNL ((batchOf provider store d symbolsStr).map
             (fun q => renderQuoteLine q.currencysymbol q.exchangerate)))]) ∧
    (process_client_command store false provider ("GET").toList dateStr
      symbolsStr).rows = store ++ batchOf provider store d symbolsStr ∧
    fetchedSymbols (process_client_command
      (store ++ batchOf provider store d symbolsStr) false provider
      ("GET").toList dateStr symbolsStr).effects = [] ∧
    insertBatches (process_client_command
      (store ++ batchOf provider store d symbolsStr) false provider
      ("GET").toList dateStr symbolsStr).effects = [] ∧
    (process_client_command (store ++ batchOf provider store d symbolsStr)
      false provider ("GET").toList dateStr symbolsStr).exn = none ∧
    sentMessages (process_client_command
      (store ++ batchOf provider store d symbolsStr) false provider
      ("GET").toList dateStr symbolsStr).effects =
      [joinNL (hitLinesOf (store ++ batchOf provider store d symbolsStr) d
        symbolsStr)] := by
  have hms := missSymsOf_all_miss store d symbolsStr hmiss
  have hp1 : ∀ s ∈ missSymsOf store d symbolsStr,
      isOkE (provider d s) = true := by rw [hms]; exact hp
  have hfirst := process_get_ok store provider dateStr symbolsStr d hd hp1
  have hne : missSymsOf store d symbolsStr ≠ [] := by
    rw [hms]; exact splitSeps_ne_nil symbolsStr
  rw [if_neg hne] at hfirst
  have hhl : hitLinesOf store d symbolsStr = [] := by
    unfold hitLinesOf hitsOf
    rw [hmiss]; rfl
  -- second request: every requested symbol is now cached
  have hall : ∀ s ∈ splitSeps symbolsStr,
      containsSym ((hitsOf (store ++ batchOf provider store d symbolsStr) d
        symbolsStr).map (fun r => r.currencysymbol)) s = true := by
    intro s hs
    apply (containsSym_iff _ _).mpr
    have hrow : RateQuote.mk d s (okD (provider d s)) ∈
        batchOf provider store d symbolsStr := by
      unfold batchOf
      rw [hms]
      exact List.mem_map_of_mem _ hs
    have hmem2 : RateQuote.mk d s (okD (provider d s)) ∈
        hitsOf (store ++ batchOf provider store d symbolsStr) d symbolsStr := by
      unfold hitsOf lookupMany
      rw [mem_sortRows]
      rw [List.mem_filter]
      refine ⟨List.mem_append_right store hrow, ?_⟩
      simp [containsSym_iff, hs]
    exact List.mem_map_of_mem (fun r => r.currencysymbol) hmem2
  have hms2 := missSymsOf_all_hit (store ++ batchOf provider store d
    symbolsStr) d symbolsStr hall
  have hp2 : ∀ s ∈ missSymsOf (store ++ batchOf provider store d symbolsStr)
      d symbolsStr, isOkE (provider d s) = true := by
    rw [hms2]; intro s hs; cases hs
  have hsecond := process_get_ok (store ++ batchOf provider store d
    symbolsStr) provider dateStr symbolsStr d hd hp2
  rw [if_pos hms2] at hsecond
  refine ⟨?_, ?_, ?_, ?_, ?_, ?_⟩
  · rw [hfirst, hms, hhl]
    simp
  · rw [hfirst]
  · rw [hsecond]
    simp [hms2, fetchedSymbols, List.filterMap_cons, fetchSel, sendSel]
  · rw [hsecond]
    simp [hms2, insertBatches, List.filterMap_cons, fetchSel, insertSel,
      sendSel]
  · rw [hsecond]
  · rw [hsecond]
    simp [hms2, sentMessages, List.filterMap_cons, sendSel]

/-- Witness for C3_write_through: `GET 2023-01-01 USD:EUR` on the empty
store with a provider that answers every symbol. -/
theorem C3_witness :
    strptimeYMD ("2023-01-01").toList = some (2023, 1, 1) ∧
    lookupMany [] (2023, 1, 1) (splitSeps ("USD:EUR").toList) = [] ∧
    (∀ s ∈ splitSeps ("USD:EUR").toList,
      isOkE (demoProvider (2023, 1, 1) s) = true) ∧
    fetchedSymbols (process_client_command
      ([] ++ batchOf demoProvider [] (2023, 1, 1) ("USD:EUR").toList) false
      demoProvider ("GET").toList ("2023-01-01").toList
      ("USD:EUR").toList).effects = [] :=
  ⟨by decide, by decide, by decide,
    (C3_write_through [] demoProvider ("2023-01-01").toList
      ("USD:EUR").toList (2023, 1, 1) (by decide) (by decide)
      (by decide)).2.2.1⟩

/-- Claim C7.  On the success path of a GET request the session sends
exactly one message: the cache-hit lines in store-lookup order, followed by
one `SYMBOL: RATE` line per newly fetched quote, joined by newlines — and
the send happens unconditionally, also when the line list is empty. -/
theorem C7_response_order (store : List RateQuote)
    (provider : Nat × Nat × Nat → List Char → Except Exn (List Char))
    (dateStr symbolsStr : List Char) (d : Nat × Nat × Nat)
    (hd : strptimeYMD dateStr = some d)
    (hp : ∀ s ∈ missSymsOf store d symbolsStr,
      isOkE (provider d s) = true) :
    sentMessages (process_client_command store false provider ("GET").toList
        dateStr symbolsStr).effects =
      [joinNL (hitLinesOf store d symbolsStr ++
        (batchOf provider store d symbolsStr).map
          (fun q => renderQuoteLine q.currencysymbol q.exchangerate))] ∧
    (process_client_command store false provider ("GET").toList dateStr
      symbolsStr).exn = none := by
  rw [process_get_ok store provider dateStr symbolsStr d hd hp]
  refine ⟨?_, rfl⟩
  by_cases hm : missSymsOf store d symbolsStr = []
  · have hb : batchOf provider store d symbolsStr = [] := by
      unfold batchOf; rw [hm]; rfl
    simp [hm, hb, sentMessages, List.filterMap_cons, sendSel]
  · simp [hm, sentMessages, List.filterMap_cons, List.filterMap_append,
      sendSel, filterMap_sendSel_fetch, fetchSel, insertSel]

/-- Witness for C7_response_order: `GET 2023-01-01 EUR|USD` against a store
holding USD, with EUR fetched from the provider. -/
theorem C7_witness :
    strptimeYMD ("2023-01-01").toList = some (2023, 1, 1) ∧
    (∀ s ∈ missSymsOf demoStore (2023, 1, 1) ("EUR|USD").toList,
      isOkE (demoProvider (2023, 1, 1) s) = true) ∧
    sentMessages (process_client_command demoStore false demoProvider
        ("GET").toList ("2023-01-01").toList ("EUR|USD").toList).effects =
      [joinNL (hitLinesOf demoStore (2023, 1, 1) ("EUR|USD").toList ++
        (batchOf demoProvider demoStore (2023, 1, 1)
          ("EUR|USD").toList).map
            (fun q => renderQuoteLine q.currencysymbol q.exchangerate))] :=
  ⟨by decide, by decide,
    (C7_response_order demoStore demoProvider ("2023-01-01").toList
      ("EUR|USD").toList (2023, 1, 1) (by decide) (by decide)).1⟩

theorem all_takeWhile (p : Char → Bool) (l : List Char) :
    (l.takeWhile p).all p = true := by
  apply List.all_eq_true.mpr
  intro a ha
  exact List.mem_takeWhile_imp ha

theorem takeWhile_split (p : Char → Bool) (l1 l2 : List Char) (x : Char)
    (h1 : l1.all p = true) (h2 : p x = false) :
    (l1 ++ x :: l2).takeWhile p = l1 ∧
      (l1 ++ x :: l2).dropWhile p = x :: l2 := by
  induction l1 with
  | nil =>
    constructor
    · simp [List.takeWhile_cons, h2]
    · simp [List.dropWhile_cons, h2]
  | cons a t ih =>
    rw [List.all_cons, Bool.and_eq_true] at h1
    obtain ⟨ha, ht⟩ := h1
    obtain ⟨ih1, ih2⟩ := ih ht
    constructor
    · simp [List.cons_append, List.takeWhile_cons, ha, ih1]
    · simp [List.cons_append, List.dropWhile_cons, ha, ih2]

theorem dateFormat_length (l : List Char) (h : dateFormat l = true) :
    l.length = 10 := by
  unfold dateFormat at h
  split at h
  · simp_all
  · cases h

theorem eq_dropLast_append_getLast (l : List Char) (a : Char) :
    l.getLast? = some a → l = l.dropLast ++ [a] := by
  induction l with
  | nil => intro h; cases h
  | cons x t ih =>
    intro h
    cases t with
    | nil =>
      rw [List.getLast?_singleton] at h
      injection h with h1
      subst h1
      rfl
    | cons y u =>
      rw [List.getLast?_cons_cons] at h
      have h2 := ih h
      rw [List.dropLast_cons₂, List.cons_append, ← h2]

theorem afterName_some (s name rest2 : List Char)
    (h : afterName s = some (name, rest2)) :
    s = name ++ ' ' :: rest2 ∧ name.all isUpper = true := by
  unfold afterName at h
  cases hdw : s.dropWhile isUpper with
  | nil =>
    simp only [hdw] at h
    exact Option.noConfusion h
  | cons c rest =>
    simp only [hdw] at h
    by_cases hc : c = ' '
    · rw [if_pos hc] at h
      subst hc
      injection h with h1
      injection h1 with h2 h3
      constructor
      · calc s = s.takeWhile isUpper ++ s.dropWhile isUpper :=
            (List.takeWhile_append_dropWhile isUpper s).symm
          _ = name ++ ' ' :: rest2 := by rw [h2, hdw, h3]
      · rw [← h2]
        exact all_takeWhile isUpper s
    · rw [if_neg hc] at h
      exact Option.noConfusion h

theorem matchTail_some (rest syms : List Char)
    (h : matchTail rest = some syms) :
    syms.all isSymCh = true ∧ (rest = syms ∨ rest = syms ++ ['\n']) := by
  unfold matchTail at h
  by_cases h1 : rest.all isSymCh = true
  · rw [if_pos h1] at h
    injection h with h2
    subst h2
    exact ⟨h1, Or.inl rfl⟩
  · rw [if_neg h1] at h
    by_cases h2 : (decide (rest.getLast? = some '\n') &&
        rest.dropLast.all isSymCh) = true
    · rw [if_pos h2] at h
      injection h with h3
      subst h3
      rw [Bool.and_eq_true] at h2
      obtain ⟨hg, hdl⟩ := h2
      have hg2 : rest.getLast? = some '\n' := of_decide_eq_true hg
      exact ⟨hdl, Or.inr (eq_dropLast_append_getLast rest '\n' hg2)⟩
    · rw [if_neg h2] at h
      exact Option.noConfusion h

theorem matchTail_all (syms : List Char) (h : syms.all isSymCh = true) :
    matchTail syms = some syms := by
  unfold matchTail
  rw [if_pos h]

theorem matchTail_nl (syms : List Char) (h : syms.all isSymCh = true) :
    matchTail (syms ++ ['\n']) = some syms := by
  unfold matchTail
  have hnl : isSymCh '\n' = false := by decide
  have h1 : (syms ++ ['\n']).all isSymCh = false := by
    rw [List.all_append]
    simp [hnl]
  have hg : (syms ++ ['\n']).getLast? = some '\n' := List.getLast?_concat _
  have hdl : (syms ++ ['\n']).dropLast = syms := List.dropLast_concat
  rw [if_neg (by simp [h1]), if_pos (by rw [hg, hdl]; simp [h]), hdl]

theorem clientCommandMatch_iff (s : List Char) :
    (clientCommandMatch s).isSome = true ↔ amendedValidLine s := by
  constructor
  · intro h
    unfold clientCommandMatch at h
    cases han : afterName s with
    | none =>
      simp only [han, Option.isSome_none] at h
      exact Bool.noConfusion h
    | some pr =>
      obtain ⟨name, rest2⟩ := pr
      simp only [han] at h
      by_cases hdf : dateFormat (rest2.take 10) = true
      · rw [if_pos hdf] at h
        cases hdr : rest2.drop 10 with
        | nil =>
          simp only [hdr, Option.isSome_none] at h
          exact Bool.noConfusion h
        | cons c rest4 =>
          simp only [hdr] at h
          by_cases hc : c = ' '
          · rw [if_pos hc] at h
            subst hc
            cases hmt : matchTail rest4 with
            | none =>
              simp only [hmt, Option.map_none', Option.isSome_none] at h
              exact Bool.noConfusion h
            | some syms =>
              obtain ⟨hs, hnu⟩ := afterName_some s name rest2 han
              obtain ⟨hsy, hca⟩ := matchTail_some rest4 syms hmt
              have hr2 : rest2 = rest2.take 10 ++ ' ' :: rest4 := by
                conv_lhs => rw [← List.take_append_drop 10 rest2]
                rw [hdr]
              have hsplit : s = name ++ ' ' ::
                  (rest2.take 10 ++ ' ' :: rest4) := by
                conv_lhs => rw [hs]
                conv_lhs => rw [hr2]
              rcases hca with rfl | hr4
              · exact ⟨name, rest2.take 10, rest4, [],
                  by rw [List.append_nil]; exact hsplit,
                  hnu, hdf, hsy, Or.inl rfl⟩
              · exact ⟨name, rest2.take 10, syms, ['\n'],
                  by rw [← hr4]; exact hsplit,
                  hnu, hdf, hsy, Or.inr rfl⟩
          · rw [if_neg hc] at h
            simp only [Option.isSome_none] at h
            exact Bool.noConfusion h
      · rw [if_neg hdf] at h
        simp only [Option.isSome_none] at h
        exact Bool.noConfusion h
  · rintro ⟨name, date, syms, tail, hs, hnu, hdf, hsy, htail⟩
    have hsp : isUpper ' ' = false := by decide
    obtain ⟨ht, hdw⟩ := takeWhile_split isUpper name
      (date ++ ' ' :: (syms ++ tail)) ' ' hnu hsp
    rw [← hs] at ht hdw
    have han : afterName s = some (name, date ++ ' ' :: (syms ++ tail)) := by
      unfold afterName
      simp only [hdw]
      rw [ht]
      simp
    have hlen : date.length = 10 := dateFormat_length date hdf
    have htake : (date ++ ' ' :: (syms ++ tail)).take 10 = date := by
      rw [← hlen]
      exact List.take_left date _
    have hdrop : (date ++ ' ' :: (syms ++ tail)).drop 10 =
        ' ' :: (syms ++ tail) := by
      rw [← hlen]
      exact List.drop_left date _
    simp only [clientCommandMatch, han, htake, hdrop, hdf, ite_true,
      eq_self_iff_true]
    rcases htail with rfl | rfl
    · rw [List.append_nil, matchTail_all syms hsy]
      rfl
    · rw [matchTail_nl syms hsy]
      rfl

/-- Claim C6, counterexample.  The line `GET 2023-01-01 ` has an empty
symbols field, which the claimed grammar (non-empty symbols) rejects, yet
`CLIENT_COMMAND_REGEX` — whose groups are `[A-Z]*` and `[A-Z,:;|]*`, both
zero-or-more — matches it: decode succeeds where the claim requires a
`ParseError`. -/
theorem C6_counterexample :
    specValidLineB ("GET 2023-01-01 ").toList = false ∧
    (clientCommandMatch ("GET 2023-01-01 ").toList).isSome = true := by
  decide

/-- Claim C6 as amended.  Decode succeeds exactly when the line is: zero or
more uppercase letters, a space, ten characters in the `dddd-dd-dd` digit
shape, a space, and a possibly empty symbols field over `[A-Z,:;|]`,
optionally followed by one final newline (Python's `$`); empty command
names and empty symbols fields are accepted.  Every other line fails the
match and the session answers it with `Invalid Command Format`. -/
theorem C6_amended (s : List Char)
    (provider : Nat × Nat × Nat → List Char → Except Exn (List Char))
    (store : List RateQuote) (storeFail : Bool) (rest : List RecvEvent) :
    ((clientCommandMatch s).isSome = true ↔ amendedValidLine s) ∧
    (clientCommandMatch s = none →
      (runLoop provider storeFail store
        (RecvEvent.data s :: rest)).effects.head? =
        some (Effect.send ("Invalid Command Format").toList)) := by
  refine ⟨clientCommandMatch_iff s, fun h => ?_⟩
  simp only [runLoop, h]
  rfl

/-- Witness for C6_amended at the unparsable line `HELLO`. -/
theorem C6_amended_witness :
    clientCommandMatch ("HELLO").toList = none ∧
    (runLoop demoProvider false []
      [RecvEvent.data ("HELLO").toList]).effects.head? =
      some (Effect.send ("Invalid Command Format").toList) :=
  ⟨by decide,
    (C6_amended ("HELLO").toList demoProvider [] false []).2 (by decide)⟩

end RatesApp
